import Mathlib

/-!
Verification development for the ExcelWizPro taskpane script
(`taskpane.js`, v12.3.0).  The JavaScript helpers are shallowly embedded
as executable Lean functions: JS strings become `String` (lists of
characters), JS numbers on the relevant code paths are natural numbers,
`while` loops over shrinking numerals are written with an explicit fuel
argument bounding the number of iterations (the loop variable strictly
decreases, so fuel equal to its initial value suffices), asynchronous
host calls are replaced by explicitly passed data, and module-level
mutable state is threaded through the functions.
-/

namespace ExcelWiz

/-! ## Numeric/string helpers from taskpane.js -/

/-- Embedding of `columnIndexToLetter`'s `while (n > 0)` loop body:
`rem = (n - 1) % 26; letters = String.fromCharCode(65 + rem) + letters;
n = Math.floor((n - 1) / 26)`.  The first argument is fuel bounding the
iteration count. -/
def colLetterAux : Nat → Nat → List Char → List Char
  | 0, _, acc => acc
  | f + 1, n, acc =>
    if n = 0 then acc
    else colLetterAux f ((n - 1) / 26) (Char.ofNat (65 + (n - 1) % 26) :: acc)

/-- Embedding of `columnIndexToLetter(index)` from taskpane.js:
`let n = index + 1` followed by the bijective base-26 digit loop. -/
def columnIndexToLetter (index : Nat) : String :=
  String.mk (colLetterAux (index + 1) (index + 1) [])

/-- Spec-side conversion (from the claim's words): interpret a string of
letters as a bijective base-26 numeral (`A` = 1 … `Z` = 26) and subtract
one to return to a 0-based column index. -/
def letterVal (l : List Char) : Nat :=
  l.foldl (fun a c => a * 26 + (c.toNat - 64)) 0

/-- Spec-side letter-to-index conversion for the round-trip claim. -/
def lettersToIndex (s : String) : Nat :=
  letterVal s.data - 1

/-- Decimal digits of a positive number, most significant first; fuel
bounds the loop (the value strictly decreases under division by 10). -/
def decDigitsAux : Nat → Nat → List Char → List Char
  | 0, _, acc => acc
  | f + 1, n, acc =>
    if n = 0 then acc
    else decDigitsAux f (n / 10) (Char.ofNat (48 + n % 10) :: acc)

/-- Embedding of JavaScript's number-to-string conversion as used in the
template literals of taskpane.js (all interpolated numbers there are
non-negative integers). -/
def numToString (n : Nat) : String :=
  if n = 0 then "0" else String.mk (decDigitsAux n n [])

/-- Spec-side decimal decoding, used to prove `numToString` injective. -/
def decVal (l : List Char) : Nat :=
  l.foldl (fun a c => a * 10 + (c.toNat - 48)) 0

/-! ## normalizeName -/

/-- The whitespace class of the regex `\s` restricted to the ASCII range
(space, tab, line feed, vertical tab, form feed, carriage return). -/
def jsIsSpace (c : Char) : Bool :=
  c == ' ' || c == '\t' || c == '\n' || c == '\r' || c.toNat == 11 || c.toNat == 12

/-- Embedding of `String.prototype.trim`: strip whitespace from both
ends. -/
def jsTrim (l : List Char) : List Char :=
  ((l.dropWhile jsIsSpace).reverse.dropWhile jsIsSpace).reverse

/-- Embedding of `String.prototype.toLowerCase` on a single character
(ASCII range: `A`–`Z` map to `a`–`z`). -/
def jsLowerChar (c : Char) : Char :=
  if 65 ≤ c.toNat ∧ c.toNat ≤ 90 then Char.ofNat (c.toNat + 32) else c

/-- `toLowerCase` on a whole string. -/
def jsToLower (s : String) : String :=
  String.mk (s.data.map jsLowerChar)

/-- Embedding of `.replace(/\s+/g, "_")`: every maximal run of
whitespace becomes a single underscore.  The Boolean records whether the
scan is currently inside a whitespace run. -/
def collapseWsAux : Bool → List Char → List Char
  | _, [] => []
  | inRun, c :: rest =>
    if jsIsSpace c then
      if inRun then collapseWsAux true rest
      else '_' :: collapseWsAux true rest
    else c :: collapseWsAux false rest

/-- Embedding of `normalizeName` from taskpane.js:
`String(name || "").trim().toLowerCase().replace(/\s+/g, "_")`. -/
def normalizeName (s : String) : String :=
  String.mk (collapseWsAux false ((jsTrim s.data).map jsLowerChar))

/-! ## The running count table (`globalNameCounts`) -/

/-- The `globalNameCounts` object, as an association list (later
bindings shadow earlier ones, exactly like property updates). -/
abbrev CountTable := List (String × Nat)

/-- Property read `globalNameCounts[k]`: `none` plays `undefined`. -/
def lookupCount (t : CountTable) (k : String) : Option Nat :=
  (t.find? (fun p => p.1 == k)).map (fun p => p.2)

/-- Embedding of the collision-handling block of `buildColumnMap`
(lines 299–305 and its two copies):
`if (counts[n]) { counts[n]++; n += "__" + counts[n] } else counts[n] = 1`.
A stored count of `0` would be falsy in JS, hence the extra test (the
table in fact only ever stores positive counts). -/
def assignName (t : CountTable) (n : String) : String × CountTable :=
  match lookupCount t n with
  | some c =>
    if c = 0 then (n, (n, 1) :: t)
    else (n ++ "__" ++ numToString (c + 1), (n, c + 1) :: t)
  | none => (n, (n, 1) :: t)

/-- The sequence of identifiers produced when the collision handler is
run over a list of normalized names in order, threading the table. -/
def assignAll (t : CountTable) : List String → List String
  | [] => []
  | n :: rest =>
    let a := assignName t n
    a.1 :: assignAll a.2 rest

/-! ## Workbook data model (the object graph read by buildColumnMap) -/

/-- The fields of a used range loaded by `buildColumnMap`
(`rowCount,columnCount,rowIndex,columnIndex`). -/
structure UsedRange where
  rowIndex : Nat
  columnIndex : Nat
  rowCount : Nat
  columnCount : Nat

/-- A table (ListObject): its name and its header row values.  `none`
stands for a falsy cell value (skipped by `if (!h) return`). -/
structure TableData where
  name : String
  headerValues : List (Option String)

/-- A worksheet as read by `buildColumnMap`.  `values r c` is the cell
value at absolute row `r`, column `c`; `none` stands for a falsy cell
(the code reads `v ? String(v).trim() : ""`).  `used = none` models
`getUsedRangeOrNullObject` returning a null object. -/
structure SheetData where
  name : String
  visibility : String
  used : Option UsedRange
  values : Nat → Nat → Option String
  tables : List TableData
  pivotNames : List String

/-- A workbook-level named range: name and resolved range address. -/
structure NamedRangeData where
  name : String
  address : String

/-- The workbook object graph consumed by `buildColumnMap`. -/
structure WorkbookData where
  sheets : List SheetData
  names : List NamedRangeData

/-- `MAX_DATA_ROWS_PER_COLUMN` from taskpane.js. -/
def MAX_DATA_ROWS_PER_COLUMN : Nat := 50000

/-- `COLUMN_MAP_TTL_MS` from taskpane.js. -/
def COLUMN_MAP_TTL_MS : Nat := 30000

/-! ## buildColumnMap -/

/-- The visibility suffix: `vis !== "Visible" ? \x28{vis.toLowerCase()}\x29 : ""`
rendered as a parenthesized lowercase tag. -/
def sheetVisText (s : SheetData) : String :=
  if s.visibility ≠ "Visible" then " (" ++ jsToLower s.visibility ++ ")" else ""

/-- The `Sheet: …` line pushed for every sheet. -/
def sheetHeaderLine (s : SheetData) : String :=
  "Sheet: " ++ s.name ++ sheetVisText s

/-- The per-sheet data-row bounds of `buildColumnMap` (lines 265–271):
`startRow` is the first data row (1-based) and the second component is
`lastRow = min(lastRowCandidate, startRow + MAX_DATA_ROWS_PER_COLUMN - 1)`. -/
def dataRowBounds (u : UsedRange) : Nat × Nat :=
  let headerRows := min 3 u.rowCount
  let dataStartRowIndex := u.rowIndex + headerRows
  let dataLastRowIndex := u.rowIndex + u.rowCount - 1
  let startRow := dataStartRowIndex + 1
  let maxLastRow := startRow + MAX_DATA_ROWS_PER_COLUMN - 1
  let lastRowCandidate := dataLastRowIndex + 1
  (startRow, min lastRowCandidate maxLastRow)

/-- The `headerTexts` array for one column: for `r < headerRows` the
cell at `(used.rowIndex + r, used.columnIndex + col)`, trimmed, or `""`
for a falsy cell. -/
def headerTextsList (s : SheetData) (u : UsedRange) (headerRows col : Nat) : List String :=
  (List.range headerRows).map (fun r =>
    match s.values (u.rowIndex + r) (u.columnIndex + col) with
    | some v => String.mk (jsTrim v.data)
    | none => "")

/-- The `primary` search (lines 282–288): scan `r = headerRows - 1`
down to `0`, returning the first non-empty header text (the bottom-most
one), or `""` when all are empty. -/
def primaryScan (texts : List String) : Nat → String
  | 0 => ""
  | r + 1 => if texts.getD r "" ≠ "" then texts.getD r "" else primaryScan texts r

/-- The `combined` construction (lines 291–297): scan the outer header
rows `r = 0 … headerRows - 2` upward-to-downward and prepend the first
non-empty text different from `primary` (then break); otherwise
`combined` stays `primary`.  The argument list is
`texts.take (headerRows - 1)`. -/
def combinedScan (primary : String) : List String → String
  | [] => primary
  | t :: rest =>
    if t ≠ "" ∧ t ≠ primary then t ++ " - " ++ primary else combinedScan primary rest

/-- Embedding of `sheet.name.replace(/'/g, "''")`. -/
def escQ : List Char → List Char
  | [] => []
  | c :: rest => if c = '\'' then '\'' :: '\'' :: escQ rest else c :: escQ rest

/-- The formula-safe sheet name (`safeSheetName`). -/
def escapeQuotes (s : String) : String :=
  String.mk (escQ s.data)

/-- The column loop of `buildColumnMap` (lines 275–313): for each column
with a non-empty `primary`, normalize and deduplicate the combined
label and push `label = 'Sheet'!ColStart:ColEnd`. -/
def columnLines (s : SheetData) (u : UsedRange) (headerRows startRow lastRow : Nat) :
    List Nat → CountTable → List String × CountTable
  | [], t => ([], t)
  | col :: cols, t =>
    let texts := headerTextsList s u headerRows col
    let primary := primaryScan texts headerRows
    if primary = "" then columnLines s u headerRows startRow lastRow cols t
    else
      let combined := combinedScan primary (texts.take (headerRows - 1))
      let a := assignName t (normalizeName combined)
      let colLetter := columnIndexToLetter (u.columnIndex + col)
      let line := a.1 ++ " = '" ++ escapeQuotes s.name ++ "'!" ++
        colLetter ++ numToString startRow ++ ":" ++ colLetter ++ numToString lastRow
      let rest := columnLines s u headerRows startRow lastRow cols a.2
      (line :: rest.1, rest.2)

/-- The per-table header loop (lines 330–348): skip falsy headers,
normalize `table.name + "." + h`, deduplicate, and push the structured
reference `table[h]`. -/
def tableColumnLines (tname : String) : List (Option String) → CountTable → List String × CountTable
  | [], t => ([], t)
  | h :: hs, t =>
    match h with
    | none => tableColumnLines tname hs t
    | some hv =>
      if hv = "" then tableColumnLines tname hs t
      else
        let a := assignName t (normalizeName (tname ++ "." ++ hv))
        let line := a.1 ++ " = " ++ tname ++ "[" ++ hv ++ "]"
        let rest := tableColumnLines tname hs a.2
        (line :: rest.1, rest.2)

/-- The loop over a sheet's tables: push `Table: name` then the header
entries. -/
def tablesLines : List TableData → CountTable → List String × CountTable
  | [], t => ([], t)
  | tb :: tbs, t =>
    let cols := tableColumnLines tb.name tb.headerValues t
    let rest := tablesLines tbs cols.2
    (("Table: " ++ tb.name) :: cols.1 ++ rest.1, rest.2)

/-- One iteration of the sheet loop of `buildColumnMap`: the `Sheet:`
line always, then — unless the sheet is skipped by
`if (used.isNullObject || used.rowCount < 2) continue` or
`if (lastRow < startRow) continue` — the column entries, table entries
and pivot context lines. -/
def sheetLines (s : SheetData) (t : CountTable) : List String × CountTable :=
  match s.used with
  | none => ([sheetHeaderLine s], t)
  | some u =>
    if u.rowCount < 2 then ([sheetHeaderLine s], t)
    else
      let headerRows := min 3 u.rowCount
      let b := dataRowBounds u
      if b.2 < b.1 then ([sheetHeaderLine s], t)
      else
        let cols := columnLines s u headerRows b.1 b.2 (List.range u.columnCount) t
        let tbl := tablesLines s.tables cols.2
        (sheetHeaderLine s ::
          (cols.1 ++ tbl.1 ++ s.pivotNames.map (fun p => "PivotSource: " ++ p)), tbl.2)

/-- The sheet loop over all sheets, threading the count table. -/
def allSheetLines : List SheetData → CountTable → List String × CountTable
  | [], t => ([], t)
  | s :: ss, t =>
    let cur := sheetLines s t
    let rest := allSheetLines ss cur.2
    (cur.1 ++ rest.1, rest.2)

/-- The named-range loop (lines 370–380): push `NamedRange: name`, then
the deduplicated normalized name bound to the range address. -/
def namedRangeLines : List NamedRangeData → CountTable → List String × CountTable
  | [], t => ([], t)
  | n :: ns, t =>
    let a := assignName t (normalizeName n.name)
    let rest := namedRangeLines ns a.2
    (("NamedRange: " ++ n.name) :: (a.1 ++ " = " ++ n.address) :: rest.1, rest.2)

/-- The `lines` array of `buildColumnMap` just before `lines.join("\n")`:
all sheet sections followed by the named-range section, threading one
`globalNameCounts` table (initially empty) through the whole build. -/
def buildColumnMapLines (wb : WorkbookData) : List String :=
  let sl := allSheetLines wb.sheets []
  let nl := namedRangeLines wb.names sl.2
  sl.1 ++ nl.1

/-- Embedding of `buildColumnMap`: the joined column-map string. -/
def buildColumnMap (wb : WorkbookData) : String :=
  String.intercalate "\n" (buildColumnMapLines wb)

/-! ## HTTP wrapper, backend client, insert handler, cache refresh -/

/-- A JS `Error` object with the `code` property taskpane.js sets. -/
structure JsError where
  message : String
  code : String
deriving DecidableEq

/-- The network environment of `safeFetch`: `navigator.onLine` and the
behaviour of `fetch` (the response body for a URL). -/
structure NetEnv where
  onLine : Bool
  response : String → String

/-- Embedding of `safeFetch` (lines 79–87).  The second component is
the list of URLs actually passed to `fetch`; when `navigator.onLine` is
false the function throws `{message := "offline", code := "OFFLINE"}`
before any fetch happens. -/
def safeFetch (env : NetEnv) (url : String) : Except JsError String × List String :=
  if env.onLine = false then (Except.error ⟨"offline", "OFFLINE"⟩, [])
  else (Except.ok (env.response url), [url])

/-- A parsed `/generate` response body; `none` models an absent (or
null/undefined) `formula` field. -/
structure BackendResponse where
  formula : Option String

/-- The sentinel returned when the backend body has no usable formula. -/
def NO_FORMULA_SENTINEL : String := "=ERROR(\"No formula returned\")"

/-- JS `a || b` on an optional string field: absent, null and the empty
string are falsy. -/
def jsOrString (v : Option String) (dflt : String) : String :=
  match v with
  | some f => if f = "" then dflt else f
  | none => dflt

/-- Embedding of the tail of `generateFormulaFromBackend` (line 448):
`return data.formula || '=ERROR("No formula returned")'`. -/
def generateFormulaFromBackend (data : BackendResponse) : String :=
  jsOrString data.formula NO_FORMULA_SENTINEL

/-- The shape of the selected range loaded by the insert handler. -/
structure SelectionShape where
  rowCount : Nat
  columnCount : Nat

/-- Embedding of the `Excel.run` body of the insert button handler
(lines 470–484).  `writes` is the log of formulas written to the
worksheet; the multi-cell check throws before the write statement is
reached. -/
def insertRunBody (sel : SelectionShape) (formula : String) (writes : List String) :
    Except JsError (List String) :=
  if sel.rowCount ≠ 1 ∨ sel.columnCount ≠ 1 then
    Except.error ⟨"MULTI_CELL_SELECTION", "MULTI_CELL_SELECTION"⟩
  else Except.ok (writes ++ [formula])

/-- Embedding of the whole `btn.onclick` handler (lines 461–494):
returns the resulting write log and the toast message shown. -/
def insertButtonClick (sel : SelectionShape) (formula : String) (writes : List String) :
    List String × String :=
  match insertRunBody sel formula writes with
  | Except.ok w => (w, "✅ Inserted")
  | Except.error e =>
    (writes,
      if e.code = "MULTI_CELL_SELECTION" then "⚠️ Select a single cell first"
      else "⚠️ Could not insert formula")

/-- The module-level cache state of taskpane.js
(`columnMapCache`, `lastColumnMapBuild`). -/
structure MapState where
  columnMapCache : String
  lastColumnMapBuild : Nat
deriving DecidableEq

/-- Embedding of `autoRefreshColumnMap` (lines 389–402).  `now` is
`Date.now()` at entry, `now2` is `Date.now()` after a successful build,
and `build` is the outcome of `await buildColumnMap()`.  Returns the new
state and the toast shown, if any. -/
def autoRefreshColumnMap (force : Bool) (now now2 : Nat) (build : Except JsError String)
    (st : MapState) : MapState × Option String :=
  if force = false ∧ st.columnMapCache ≠ "" ∧
      now - st.lastColumnMapBuild < COLUMN_MAP_TTL_MS then
    (st, none)
  else
    match build with
    | Except.ok m => ({ columnMapCache := m, lastColumnMapBuild := now2 }, none)
    | Except.error _ => (st, some "⚠️ Could not refresh column map")

/-! ## Spec-side definitions for the claims -/

/-- Spec-side reading of the `primary` choice: the bottom-most
non-empty header text. -/
def specPrimary (texts : List String) : String :=
  (texts.reverse.find? (fun t => t != "")).getD ""

/-- Spec-side reading of the `combined` label: prepend the top-most
non-empty outer header text that differs from `primary`, if any. -/
def specCombined (primary : String) (rows : List String) : String :=
  match rows.find? (fun t => t != "" && t != primary) with
  | some t0 => t0 ++ " - " ++ primary
  | none => primary

/-- The identifier the collision handler produces for a name `n` whose
earlier occurrences are those in the processed prefix `p`: the bare name
on a first occurrence, otherwise the name with the occurrence number
appended after a double underscore. -/
def outFor (p : List String) (n : String) : String :=
  if p.count n = 0 then n else n ++ "__" ++ numToString (p.count n + 1)

/-- Positional characterization of `assignAll`: the output for each name
is `outFor` of the prefix of names processed before it. -/
def specOuts (p : List String) : List String → List String
  | [] => []
  | n :: rest => outFor p n :: specOuts (p ++ [n]) rest

/-- Whether a character list contains two consecutive underscores. -/
def hasDoubleUS : List Char → Bool
  | [] => false
  | [_] => false
  | a :: b :: rest => (a == '_' && b == '_') || hasDoubleUS (b :: rest)

/-- The characters of a map line before the first ` = ` separator, when
the line has one (identifier lines do, section header lines do not). -/
def lhsChars : List Char → Option (List Char)
  | [] => none
  | ' ' :: '=' :: ' ' :: _ => some []
  | c :: rest => (lhsChars rest).map (fun l => c :: l)

/-- The left-hand side of a `name = range` map line. -/
def lhsOf (s : String) : Option String :=
  (lhsChars s.data).map String.mk

/-- The normalized identifiers occurring on the left of `name = range`
lines of a column map. -/
def identsOfLines (lines : List String) : List String :=
  lines.filterMap lhsOf

/-! ## Concrete workbooks for the counterexamples -/

/-- Cell grid with headers `foo`, `foo`, `foo__2` in row 0. -/
def collisionValues : Nat → Nat → Option String := fun r c =>
  if r = 0 ∧ c = 0 then some "foo"
  else if r = 0 ∧ c = 1 then some "foo"
  else if r = 0 ∧ c = 2 then some "foo__2"
  else none

/-- A sheet whose third header collides with a generated suffix. -/
def collisionSheet : SheetData :=
  ⟨"S", "Visible", some ⟨0, 0, 4, 3⟩, collisionValues, [], []⟩

/-- A workbook on which `buildColumnMap` emits a duplicated identifier. -/
def collisionWorkbook : WorkbookData :=
  ⟨[collisionSheet], []⟩

/-- Cell grid with three stacked non-empty headers `A`, `B`, `C` in
column 0. -/
def tripleHeaderValues : Nat → Nat → Option String := fun r c =>
  if r = 0 ∧ c = 0 then some "A"
  else if r = 1 ∧ c = 0 then some "B"
  else if r = 2 ∧ c = 0 then some "C"
  else none

/-- A sheet with three distinct non-empty header rows in one column. -/
def tripleHeaderSheet : SheetData :=
  ⟨"S", "Visible", some ⟨0, 0, 4, 1⟩, tripleHeaderValues, [], []⟩

/-- A workbook showing that the middle header cell is dropped from the
combined label. -/
def tripleHeaderWorkbook : WorkbookData :=
  ⟨[tripleHeaderSheet], []⟩

end ExcelWiz

namespace ExcelWiz

/-! ## Character code facts -/

theorem char_toNat_65 : ∀ d, d < 26 → (Char.ofNat (65 + d)).toNat = 65 + d := by decide

theorem char_toNat_97 : ∀ d, d < 26 → (Char.ofNat (97 + d)).toNat = 97 + d := by decide

theorem char_toNat_48 : ∀ d, d < 10 → (Char.ofNat (48 + d)).toNat = 48 + d := by decide

/-! ## columnIndexToLetter: round-trip and shape -/

theorem colLetterAux_append (f : Nat) :
    ∀ n acc, colLetterAux f n acc = colLetterAux f n [] ++ acc := by
  induction f with
  | zero => intro n acc; simp [colLetterAux]
  | succ f ih =>
    intro n acc
    by_cases h : n = 0
    · simp [colLetterAux, h]
    · simp only [colLetterAux, if_neg h]
      rw [ih ((n - 1) / 26) (Char.ofNat (65 + (n - 1) % 26) :: acc),
          ih ((n - 1) / 26) [Char.ofNat (65 + (n - 1) % 26)]]
      simp

theorem letterVal_append (l : List Char) (c : Char) :
    letterVal (l ++ [c]) = letterVal l * 26 + (c.toNat - 64) := by
  simp [letterVal, List.foldl_append]

theorem letterVal_colLetterAux :
    ∀ f n, n ≤ f → letterVal (colLetterAux f n []) = n := by
  intro f
  induction f with
  | zero =>
    intro n h
    have h0 : n = 0 := Nat.le_zero.mp h
    subst h0
    simp [colLetterAux, letterVal]
  | succ f ih =>
    intro n h
    by_cases h0 : n = 0
    · subst h0; simp [colLetterAux, letterVal]
    · have hstep : colLetterAux (f + 1) n [] =
          colLetterAux f ((n - 1) / 26) [Char.ofNat (65 + (n - 1) % 26)] := by
        simp [colLetterAux, h0]
      have hb : (n - 1) / 26 ≤ f := by
        have := Nat.div_le_self (n - 1) 26
        omega
      rw [hstep, colLetterAux_append, letterVal_append, ih _ hb,
          char_toNat_65 _ (Nat.mod_lt _ (by norm_num))]
      have := Nat.div_add_mod (n - 1) 26
      omega

theorem colLetterAux_chars :
    ∀ f n acc, (∀ c ∈ acc, 65 ≤ c.toNat ∧ c.toNat ≤ 90) →
    ∀ c ∈ colLetterAux f n acc, 65 ≤ c.toNat ∧ c.toNat ≤ 90 := by
  intro f
  induction f with
  | zero => intro n acc hacc; simpa [colLetterAux] using hacc
  | succ f ih =>
    intro n acc hacc c hc
    by_cases h0 : n = 0
    · simp only [colLetterAux, if_pos h0] at hc
      exact hacc c hc
    · simp only [colLetterAux, if_neg h0] at hc
      refine ih _ _ ?_ c hc
      intro d hd
      rcases List.mem_cons.mp hd with h | h
      · subst h
        have h26 : (n - 1) % 26 < 26 := Nat.mod_lt _ (by norm_num)
        rw [char_toNat_65 _ h26]
        omega
      · exact hacc d h

theorem colLetterAux_length :
    ∀ f n acc, acc.length ≤ (colLetterAux f n acc).length := by
  intro f
  induction f with
  | zero => intro n acc; simp [colLetterAux]
  | succ f ih =>
    intro n acc
    by_cases h0 : n = 0
    · simp [colLetterAux, h0]
    · simp only [colLetterAux, if_neg h0]
      calc acc.length ≤ (Char.ofNat (65 + (n - 1) % 26) :: acc).length := by simp
        _ ≤ _ := ih _ _

/-- Claim C5: for every index in 0..701 the conversion of
`columnIndexToLetter` round-trips through the bijective base-26
letter-to-index reading (in fact this holds for every index). -/
theorem c5_column_letter_roundtrip (i : Nat) (h : i ≤ 701) :
    lettersToIndex (columnIndexToLetter i) = i := by
  have hv := letterVal_colLetterAux (i + 1) (i + 1) (Nat.le_refl _)
  show letterVal (colLetterAux (i + 1) (i + 1) []) - 1 = i
  omega

theorem c5_column_letter_roundtrip_witness :
    701 ≤ 701 ∧ lettersToIndex (columnIndexToLetter 701) = 701 :=
  ⟨by decide, c5_column_letter_roundtrip 701 (by decide)⟩

theorem colLetterAux_zero : ∀ (f : Nat) (acc : List Char), colLetterAux f 0 acc = acc := by
  intro f acc
  cases f with
  | zero => rfl
  | succ f => simp [colLetterAux]

theorem colLetterAux_fuel :
    ∀ (f1 f2 n : Nat) (acc : List Char), n ≤ f1 → n ≤ f2 →
    colLetterAux f1 n acc = colLetterAux f2 n acc := by
  intro f1
  induction f1 with
  | zero =>
    intro f2 n acc h1 _
    have h0 : n = 0 := Nat.le_zero.mp h1
    subst h0
    rw [colLetterAux_zero, colLetterAux_zero]
  | succ f1 ih =>
    intro f2 n acc h1 h2
    by_cases h0 : n = 0
    · subst h0
      rw [colLetterAux_zero, colLetterAux_zero]
    · obtain ⟨f2p, rfl⟩ : ∃ f2p, f2 = f2p + 1 := ⟨f2 - 1, by omega⟩
      show (if n = 0 then acc else _) = (if n = 0 then acc else _)
      rw [if_neg h0, if_neg h0]
      refine ih f2p ((n - 1) / 26) _ ?_ ?_
      · have := Nat.div_le_self (n - 1) 26
        omega
      · have := Nat.div_le_self (n - 1) 26
        omega

/-- Claim C10: the `columnIndexToLetter` loop terminates on every
non-negative index — the loop value strictly decreases, so the fuel
`index + 1` of the embedding suffices and any larger fuel computes the
same letters — and the result is a non-empty string whose characters
are all uppercase `A`–`Z` (codes 65–90). -/
theorem c10_column_letter_total_shape (index : Nat) :
    (∀ f, index + 1 ≤ f →
      colLetterAux f (index + 1) [] = (columnIndexToLetter index).data) ∧
    (columnIndexToLetter index).data ≠ [] ∧
    ∀ c ∈ (columnIndexToLetter index).data, 65 ≤ c.toNat ∧ c.toNat ≤ 90 := by
  refine ⟨?_, ?_, ?_⟩
  · intro f hf
    exact colLetterAux_fuel f (index + 1) (index + 1) [] hf (Nat.le_refl _)
  · show colLetterAux (index + 1) (index + 1) [] ≠ []
    have h1 : colLetterAux (index + 1) (index + 1) [] =
        colLetterAux index ((index + 1 - 1) / 26)
          [Char.ofNat (65 + (index + 1 - 1) % 26)] := by
      simp [colLetterAux]
    rw [h1]
    have hlen := colLetterAux_length index ((index + 1 - 1) / 26)
      [Char.ofNat (65 + (index + 1 - 1) % 26)]
    intro hnil
    rw [hnil] at hlen
    simp at hlen
  · intro c hc
    exact colLetterAux_chars _ _ _ (by simp) c hc

theorem c10_column_letter_total_shape_witness :
    28 ≤ 1000 ∧ colLetterAux 1000 28 [] = (columnIndexToLetter 27).data ∧
    (columnIndexToLetter 27).data ≠ [] :=
  ⟨by decide, (c10_column_letter_total_shape 27).1 1000 (by decide),
   (c10_column_letter_total_shape 27).2.1⟩

end ExcelWiz

namespace ExcelWiz

/-! ## Decimal rendering: injectivity and digit shape -/

theorem decDigitsAux_append (f : Nat) :
    ∀ n acc, decDigitsAux f n acc = decDigitsAux f n [] ++ acc := by
  induction f with
  | zero => intro n acc; simp [decDigitsAux]
  | succ f ih =>
    intro n acc
    by_cases h : n = 0
    · simp [decDigitsAux, h]
    · simp only [decDigitsAux, if_neg h]
      rw [ih (n / 10) (Char.ofNat (48 + n % 10) :: acc),
          ih (n / 10) [Char.ofNat (48 + n % 10)]]
      simp

theorem decVal_append (l : List Char) (c : Char) :
    decVal (l ++ [c]) = decVal l * 10 + (c.toNat - 48) := by
  simp [decVal, List.foldl_append]

theorem decVal_decDigitsAux :
    ∀ f n, n ≤ f → decVal (decDigitsAux f n []) = n := by
  intro f
  induction f with
  | zero =>
    intro n h
    have h0 : n = 0 := Nat.le_zero.mp h
    subst h0
    simp [decDigitsAux, decVal]
  | succ f ih =>
    intro n h
    by_cases h0 : n = 0
    · subst h0; simp [decDigitsAux, decVal]
    · have hstep : decDigitsAux (f + 1) n [] =
          decDigitsAux f (n / 10) [Char.ofNat (48 + n % 10)] := by
        simp [decDigitsAux, h0]
      have hb : n / 10 ≤ f := by
        have := Nat.div_lt_self (Nat.pos_of_ne_zero h0) (by norm_num : (1 : Nat) < 10)
        omega
      rw [hstep, decDigitsAux_append, decVal_append, ih _ hb,
          char_toNat_48 _ (Nat.mod_lt _ (by norm_num))]
      have := Nat.div_add_mod n 10
      omega

theorem decVal_numToString (n : Nat) : decVal (numToString n).data = n := by
  by_cases h : n = 0
  · subst h; decide
  · show decVal (if n = 0 then ("0" : String) else String.mk (decDigitsAux n n [])).data = n
    rw [if_neg h]
    exact decVal_decDigitsAux n n (Nat.le_refl _)

theorem numToString_injective {a b : Nat} (h : numToString a = numToString b) : a = b := by
  have := congrArg (fun s => decVal s.data) h
  simpa [decVal_numToString] using this

theorem decDigitsAux_chars :
    ∀ f n acc, (∀ c ∈ acc, 48 ≤ c.toNat ∧ c.toNat ≤ 57) →
    ∀ c ∈ decDigitsAux f n acc, 48 ≤ c.toNat ∧ c.toNat ≤ 57 := by
  intro f
  induction f with
  | zero => intro n acc hacc; simpa [decDigitsAux] using hacc
  | succ f ih =>
    intro n acc hacc c hc
    by_cases h0 : n = 0
    · simp only [decDigitsAux, if_pos h0] at hc
      exact hacc c hc
    · simp only [decDigitsAux, if_neg h0] at hc
      refine ih _ _ ?_ c hc
      intro d hd
      rcases List.mem_cons.mp hd with h | h
      · subst h
        have h10 : n % 10 < 10 := Nat.mod_lt _ (by norm_num)
        rw [char_toNat_48 _ h10]
        omega
      · exact hacc d h

theorem numToString_digits (n : Nat) :
    ∀ c ∈ (numToString n).data, 48 ≤ c.toNat ∧ c.toNat ≤ 57 := by
  by_cases h : n = 0
  · subst h; decide
  · show ∀ c ∈ (if n = 0 then ("0" : String) else String.mk (decDigitsAux n n [])).data, _
    rw [if_neg h]
    exact decDigitsAux_chars n n [] (by simp)

theorem decDigitsAux_length :
    ∀ f n acc, acc.length ≤ (decDigitsAux f n acc).length := by
  intro f
  induction f with
  | zero => intro n acc; simp [decDigitsAux]
  | succ f ih =>
    intro n acc
    by_cases h0 : n = 0
    · simp [decDigitsAux, h0]
    · simp only [decDigitsAux, if_neg h0]
      calc acc.length ≤ (Char.ofNat (48 + n % 10) :: acc).length := by simp
        _ ≤ _ := ih _ _

theorem numToString_ne_nil (n : Nat) : (numToString n).data ≠ [] := by
  by_cases h : n = 0
  · subst h; decide
  · show (if n = 0 then ("0" : String) else String.mk (decDigitsAux n n [])).data ≠ []
    rw [if_neg h]
    obtain ⟨f, hf⟩ : ∃ f, n = f + 1 := ⟨n - 1, by omega⟩
    subst hf
    show decDigitsAux (f + 1) (f + 1) [] ≠ []
    have h1 : decDigitsAux (f + 1) (f + 1) [] =
        decDigitsAux f ((f + 1) / 10) [Char.ofNat (48 + (f + 1) % 10)] := by
      simp [decDigitsAux]
    rw [h1]
    have hlen := decDigitsAux_length f ((f + 1) / 10) [Char.ofNat (48 + (f + 1) % 10)]
    intro hnil
    rw [hnil] at hlen
    simp at hlen

theorem numToString_no_underscore (n : Nat) : '_' ∉ (numToString n).data := by
  intro hmem
  have := numToString_digits n '_' hmem
  revert this
  decide

end ExcelWiz

namespace ExcelWiz

/-! ## normalizeName: idempotence -/

theorem jsLowerChar_toNat (c : Char) (h : 65 ≤ c.toNat ∧ c.toNat ≤ 90) :
    (jsLowerChar c).toNat = c.toNat + 32 := by
  rw [jsLowerChar, if_pos h]
  have h26 : c.toNat - 65 < 26 := by omega
  have hc := char_toNat_97 _ h26
  have he : 97 + (c.toNat - 65) = c.toNat + 32 := by omega
  rw [he] at hc
  exact hc

theorem jsLowerChar_idem (c : Char) : jsLowerChar (jsLowerChar c) = jsLowerChar c := by
  by_cases h : 65 ≤ c.toNat ∧ c.toNat ≤ 90
  · have hgt : ¬(65 ≤ (jsLowerChar c).toNat ∧ (jsLowerChar c).toNat ≤ 90) := by
      rw [jsLowerChar_toNat c h]
      omega
    rw [show jsLowerChar (jsLowerChar c) =
        (if 65 ≤ (jsLowerChar c).toNat ∧ (jsLowerChar c).toNat ≤ 90 then
          Char.ofNat ((jsLowerChar c).toNat + 32) else jsLowerChar c) from rfl,
      if_neg hgt]
  · have hc : jsLowerChar c = c := by rw [jsLowerChar, if_neg h]
    rw [hc, hc]

theorem map_jsLowerChar_fix {l : List Char} (h : ∀ c ∈ l, jsLowerChar c = c) :
    l.map jsLowerChar = l := by
  induction l with
  | nil => rfl
  | cons c t ih =>
    have hc : jsLowerChar c = c := h c (by simp)
    have ht : t.map jsLowerChar = t := ih (fun d hd => h d (by simp [hd]))
    simp [hc, ht]

theorem collapseWsAux_no_space :
    ∀ (l : List Char) (b : Bool), ∀ c ∈ collapseWsAux b l, jsIsSpace c = false := by
  intro l
  induction l with
  | nil => intro b c hc; simp [collapseWsAux] at hc
  | cons a t ih =>
    intro b c hc
    simp only [collapseWsAux] at hc
    by_cases ha : jsIsSpace a
    · rw [if_pos ha] at hc
      cases b with
      | true => exact ih true c (by simpa using hc)
      | false =>
        rcases List.mem_cons.mp (by simpa using hc) with h | h
        · subst h; decide
        · exact ih true c h
    · rw [if_neg ha] at hc
      rcases List.mem_cons.mp hc with h | h
      · subst h; simpa using ha
      · exact ih false c h

theorem collapseWsAux_id :
    ∀ (l : List Char) (b : Bool), (∀ c ∈ l, jsIsSpace c = false) → collapseWsAux b l = l := by
  intro l
  induction l with
  | nil => intro b _; rfl
  | cons a t ih =>
    intro b h
    have ha : jsIsSpace a = false := h a (by simp)
    simp only [collapseWsAux, ha]
    simp [ih false (fun c hc => h c (by simp [hc]))]

theorem collapseWsAux_mem :
    ∀ (l : List Char) (b : Bool), ∀ c ∈ collapseWsAux b l, c = '_' ∨ c ∈ l := by
  intro l
  induction l with
  | nil => intro b c hc; simp [collapseWsAux] at hc
  | cons a t ih =>
    intro b c hc
    simp only [collapseWsAux] at hc
    by_cases ha : jsIsSpace a
    · rw [if_pos ha] at hc
      cases b with
      | true =>
        rcases ih true c (by simpa using hc) with h | h
        · exact Or.inl h
        · exact Or.inr (by simp [h])
      | false =>
        rcases List.mem_cons.mp (by simpa using hc) with h | h
        · exact Or.inl h
        · rcases ih true c h with h2 | h2
          · exact Or.inl h2
          · exact Or.inr (by simp [h2])
    · rw [if_neg ha] at hc
      rcases List.mem_cons.mp hc with h | h
      · exact Or.inr (by simp [h])
      · rcases ih false c h with h2 | h2
        · exact Or.inl h2
        · exact Or.inr (by simp [h2])

theorem dropWhile_id {p : Char → Bool} {l : List Char} (h : ∀ c ∈ l, p c = false) :
    l.dropWhile p = l := by
  cases l with
  | nil => rfl
  | cons a t => simp [List.dropWhile_cons, h a (by simp)]

theorem jsTrim_id {l : List Char} (h : ∀ c ∈ l, jsIsSpace c = false) : jsTrim l = l := by
  rw [jsTrim, dropWhile_id h, dropWhile_id (fun c hc => h c (List.mem_reverse.mp hc)),
    List.reverse_reverse]

theorem normalizeName_idem (s : String) :
    normalizeName (normalizeName s) = normalizeName s := by
  apply String.ext
  show collapseWsAux false ((jsTrim (normalizeName s).data).map jsLowerChar) =
    (normalizeName s).data
  have hdata : (normalizeName s).data =
      collapseWsAux false ((jsTrim s.data).map jsLowerChar) := rfl
  rw [hdata]
  have hns : ∀ c ∈ collapseWsAux false ((jsTrim s.data).map jsLowerChar),
      jsIsSpace c = false := collapseWsAux_no_space _ _
  have hfix : ∀ c ∈ collapseWsAux false ((jsTrim s.data).map jsLowerChar),
      jsLowerChar c = c := by
    intro c hc
    rcases collapseWsAux_mem _ _ c hc with h | h
    · subst h; decide
    · rcases List.mem_map.mp h with ⟨c0, _, rfl⟩
      exact jsLowerChar_idem c0
  rw [jsTrim_id hns, map_jsLowerChar_fix hfix, collapseWsAux_id _ _ hns]

/-- Claim C4: `normalizeName` is idempotent, and the collision
deduplication is a deterministic function of the input name sequence
(the count table starts empty on every build, so equal header sequences
give equal suffixed identifier sequences). -/
theorem c4_normalize_idem_dedup_deterministic :
    (∀ s : String, normalizeName (normalizeName s) = normalizeName s) ∧
    (∀ ns1 ns2 : List String, ns1 = ns2 → assignAll [] ns1 = assignAll [] ns2) :=
  ⟨normalizeName_idem, fun _ _ h => by rw [h]⟩

theorem c4_normalize_idem_dedup_deterministic_witness :
    normalizeName (normalizeName "  Net   Sales ") = normalizeName "  Net   Sales " ∧
    assignAll [] ["net_sales", "net_sales"] = assignAll [] ["net_sales", "net_sales"] :=
  ⟨c4_normalize_idem_dedup_deterministic.1 "  Net   Sales ",
   c4_normalize_idem_dedup_deterministic.2 ["net_sales", "net_sales"] _ rfl⟩

end ExcelWiz

namespace ExcelWiz

/-! ## Insert handler, backend client, safeFetch, cache refresh -/

/-- Claim C2: a selection whose shape is not exactly 1×1 makes the
insert handler raise `MULTI_CELL_SELECTION` before any formula write
(the write log is unchanged) and only a toast is shown; a 1×1 selection
gets the formula written. -/
theorem c2_insert_rejects_multicell (sel : SelectionShape) (f : String) (w : List String) :
    (sel.rowCount ≠ 1 ∨ sel.columnCount ≠ 1 →
      insertRunBody sel f w =
        Except.error ⟨"MULTI_CELL_SELECTION", "MULTI_CELL_SELECTION"⟩ ∧
      insertButtonClick sel f w = (w, "⚠️ Select a single cell first")) ∧
    (sel.rowCount = 1 → sel.columnCount = 1 →
      insertButtonClick sel f w = (w ++ [f], "✅ Inserted")) := by
  constructor
  · intro h
    have hb : insertRunBody sel f w =
        Except.error ⟨"MULTI_CELL_SELECTION", "MULTI_CELL_SELECTION"⟩ := by
      rw [insertRunBody, if_pos h]
    exact ⟨hb, by simp [insertButtonClick, hb]⟩
  · intro h1 h2
    have hcond : ¬(sel.rowCount ≠ 1 ∨ sel.columnCount ≠ 1) := by simp [h1, h2]
    have hb : insertRunBody sel f w = Except.ok (w ++ [f]) := by
      rw [insertRunBody, if_neg hcond]
    simp [insertButtonClick, hb]

theorem c2_insert_rejects_multicell_witness :
    insertButtonClick ⟨2, 3⟩ "=SUM(A:A)" [] = ([], "⚠️ Select a single cell first") ∧
    insertButtonClick ⟨1, 1⟩ "=SUM(A:A)" [] = (["=SUM(A:A)"], "✅ Inserted") :=
  ⟨((c2_insert_rejects_multicell ⟨2, 3⟩ "=SUM(A:A)" []).1 (Or.inl (by decide))).2,
   (c2_insert_rejects_multicell ⟨1, 1⟩ "=SUM(A:A)" []).2 rfl rfl⟩

/-- Claim C3: a response body whose `formula` field is missing or falsy
yields the sentinel error string; a present, non-empty formula is
returned as is. -/
theorem c3_backend_sentinel (data : BackendResponse) :
    ((data.formula = none ∨ data.formula = some "") →
      generateFormulaFromBackend data = NO_FORMULA_SENTINEL) ∧
    (∀ f, data.formula = some f → f ≠ "" →
      generateFormulaFromBackend data = f) := by
  constructor
  · intro h
    rcases h with h | h <;> simp [generateFormulaFromBackend, jsOrString, h]
  · intro f hf hne
    simp [generateFormulaFromBackend, jsOrString, hf, hne]

theorem c3_backend_sentinel_witness :
    generateFormulaFromBackend ⟨none⟩ = NO_FORMULA_SENTINEL ∧
    generateFormulaFromBackend ⟨some "=A1+B1"⟩ = "=A1+B1" :=
  ⟨(c3_backend_sentinel ⟨none⟩).1 (Or.inl rfl),
   (c3_backend_sentinel ⟨some "=A1+B1"⟩).2 "=A1+B1" rfl (by decide)⟩

/-- Claim C8: with `navigator.onLine` false, `safeFetch` throws an
error carrying code `OFFLINE` and the wrapped `fetch` is never invoked
(the fetched-URL log stays empty). -/
theorem c8_offline_short_circuit (env : NetEnv) (url : String) (h : env.onLine = false) :
    safeFetch env url = (Except.error ⟨"offline", "OFFLINE"⟩, []) := by
  rw [safeFetch, if_pos h]

theorem c8_offline_short_circuit_witness :
    safeFetch ⟨false, fun _ => "ok"⟩ "https://excelwizpro-finalapi.onrender.com/health" =
      (Except.error ⟨"offline", "OFFLINE"⟩, []) :=
  c8_offline_short_circuit ⟨false, fun _ => "ok"⟩ _ rfl

/-- Claim C9: an unforced call with a non-empty cache within the 30 s
TTL leaves the cache state untouched; a forced call, an empty cache or
an expired TTL leads (on build success) to the new map being stored with
the updated timestamp. -/
theorem c9_ttl_cache (st : MapState) (now now2 : Nat) :
    (∀ build, st.columnMapCache ≠ "" →
      now - st.lastColumnMapBuild < COLUMN_MAP_TTL_MS →
      autoRefreshColumnMap false now now2 build st = (st, none)) ∧
    (∀ (m : String) (force : Bool),
      force = true ∨ st.columnMapCache = "" ∨
        COLUMN_MAP_TTL_MS ≤ now - st.lastColumnMapBuild →
      autoRefreshColumnMap force now now2 (Except.ok m) st =
        ({ columnMapCache := m, lastColumnMapBuild := now2 }, none)) := by
  constructor
  · intro build hc ht
    rw [autoRefreshColumnMap.eq_def, if_pos ⟨rfl, hc, ht⟩]
  · intro m force h
    have hcond : ¬(force = false ∧ st.columnMapCache ≠ "" ∧
        now - st.lastColumnMapBuild < COLUMN_MAP_TTL_MS) := by
      rcases h with h | h | h
      · simp [h]
      · simp [h]
      · intro hc
        exact absurd hc.2.2 (by omega)
    rw [autoRefreshColumnMap.eq_def, if_neg hcond]

theorem c9_ttl_cache_witness :
    autoRefreshColumnMap false 10000 10001 (Except.ok "m2") ⟨"m1", 0⟩ = (⟨"m1", 0⟩, none) ∧
    autoRefreshColumnMap true 10000 10001 (Except.ok "m2") ⟨"m1", 0⟩ =
      (⟨"m2", 10001⟩, none) :=
  ⟨(c9_ttl_cache ⟨"m1", 0⟩ 10000 10001).1 (Except.ok "m2") (by decide) (by decide),
   (c9_ttl_cache ⟨"m1", 0⟩ 10000 10001).2 "m2" true (Or.inl rfl)⟩

/-- Claim C7: the emitted data range of a column spans at most 50000
rows (`lastRow` is `min` of the last used row and
`startRow + MAX_DATA_ROWS_PER_COLUMN - 1`), and a sheet with a null
used range or fewer than 2 used rows contributes its `Sheet:` header
line but no column entries. -/
theorem c7_row_cap_and_short_sheets :
    (∀ u : UsedRange, 2 ≤ u.rowCount →
      (dataRowBounds u).2 =
        min (u.rowIndex + u.rowCount)
          ((dataRowBounds u).1 + MAX_DATA_ROWS_PER_COLUMN - 1)) ∧
    (∀ u : UsedRange, (dataRowBounds u).1 ≤ (dataRowBounds u).2 →
      (dataRowBounds u).2 - (dataRowBounds u).1 + 1 ≤ MAX_DATA_ROWS_PER_COLUMN) ∧
    (∀ (s : SheetData) (t : CountTable), s.used = none →
      sheetLines s t = ([sheetHeaderLine s], t)) ∧
    (∀ (s : SheetData) (u : UsedRange) (t : CountTable), s.used = some u →
      u.rowCount < 2 → sheetLines s t = ([sheetHeaderLine s], t)) := by
  refine ⟨?_, ?_, ?_, ?_⟩
  · intro u h
    simp only [dataRowBounds, MAX_DATA_ROWS_PER_COLUMN]
    omega
  · intro u h
    simp only [dataRowBounds, MAX_DATA_ROWS_PER_COLUMN] at h ⊢
    omega
  · intro s t h
    simp [sheetLines, h]
  · intro s u t h h2
    simp [sheetLines, h, h2]

theorem c7_row_cap_and_short_sheets_witness :
    (dataRowBounds ⟨0, 0, 60010, 2⟩).2 - (dataRowBounds ⟨0, 0, 60010, 2⟩).1 + 1 ≤
      MAX_DATA_ROWS_PER_COLUMN ∧
    sheetLines ⟨"Empty", "Visible", some ⟨0, 0, 1, 5⟩, fun _ _ => none, [], []⟩ [] =
      ([sheetHeaderLine ⟨"Empty", "Visible", some ⟨0, 0, 1, 5⟩, fun _ _ => none, [], []⟩],
        []) :=
  ⟨c7_row_cap_and_short_sheets.2.1 ⟨0, 0, 60010, 2⟩ (by decide),
   c7_row_cap_and_short_sheets.2.2.2 _ ⟨0, 0, 1, 5⟩ [] rfl (by decide)⟩

end ExcelWiz

namespace ExcelWiz

/-! ## Collision deduplication: characterization and distinctness -/

theorem lookupCount_insert_self (t : CountTable) (n : String) (v : Nat) :
    lookupCount ((n, v) :: t) n = some v := by
  simp [lookupCount, List.find?_cons]

theorem lookupCount_insert_ne (t : CountTable) {m n : String} (h : m ≠ n) (v : Nat) :
    lookupCount ((n, v) :: t) m = lookupCount t m := by
  have hb : ((n, v).1 == m) = false := by simpa using Ne.symm h
  simp [lookupCount, List.find?_cons, hb]

theorem assignAll_eq_specOuts :
    ∀ (ns : List String) (t : CountTable) (p : List String),
    (∀ n, lookupCount t n = if p.count n = 0 then none else some (p.count n)) →
    assignAll t ns = specOuts p ns := by
  intro ns
  induction ns with
  | nil => intro t p _; rfl
  | cons n rest ih =>
    intro t p h
    have hn := h n
    by_cases hz : p.count n = 0
    · rw [if_pos hz] at hn
      have ha : assignName t n = (n, (n, 1) :: t) := by
        unfold assignName
        rw [hn]
      have htail : assignAll ((n, 1) :: t) rest = specOuts (p ++ [n]) rest := by
        refine ih ((n, 1) :: t) (p ++ [n]) ?_
        intro m
        by_cases hm : m = n
        · subst hm
          rw [lookupCount_insert_self]
          have hc : (p ++ [m]).count m = 1 := by
            simp [List.count_append, hz]
          rw [hc]
          simp
        · rw [lookupCount_insert_ne t hm, h m]
          have hc : (p ++ [n]).count m = p.count m := by
            simp [List.count_append, List.count_singleton]
            exact fun hh => hm hh.symm
          rw [hc]
      show (assignName t n).1 :: assignAll (assignName t n).2 rest = _
      rw [ha]
      show n :: assignAll ((n, 1) :: t) rest = specOuts p (n :: rest)
      rw [htail]
      show n :: specOuts (p ++ [n]) rest = outFor p n :: specOuts (p ++ [n]) rest
      rw [outFor, if_pos hz]
    · rw [if_neg hz] at hn
      have ha : assignName t n =
          (n ++ "__" ++ numToString (p.count n + 1), (n, p.count n + 1) :: t) := by
        unfold assignName
        rw [hn]
        simp [hz]
      have htail : assignAll ((n, p.count n + 1) :: t) rest = specOuts (p ++ [n]) rest := by
        refine ih _ (p ++ [n]) ?_
        intro m
        by_cases hm : m = n
        · subst hm
          rw [lookupCount_insert_self]
          have hc : (p ++ [m]).count m = p.count m + 1 := by
            simp [List.count_append]
          rw [hc]
          simp
        · rw [lookupCount_insert_ne t hm, h m]
          have hc : (p ++ [n]).count m = p.count m := by
            simp [List.count_append, List.count_singleton]
            exact fun hh => hm hh.symm
          rw [hc]
      show (assignName t n).1 :: assignAll (assignName t n).2 rest = _
      rw [ha]
      show (n ++ "__" ++ numToString (p.count n + 1)) :: assignAll _ rest =
        specOuts p (n :: rest)
      rw [htail]
      show _ = outFor p n :: specOuts (p ++ [n]) rest
      rw [outFor, if_neg hz]

end ExcelWiz

namespace ExcelWiz

theorem specOuts_mem :
    ∀ (ns p : List String) (x : String), x ∈ specOuts p ns →
    ∃ m pre, m ∈ ns ∧ x = outFor (p ++ pre) m := by
  intro ns
  induction ns with
  | nil => intro p x hx; simp [specOuts] at hx
  | cons n rest ih =>
    intro p x hx
    rcases List.mem_cons.mp hx with h | h
    · exact ⟨n, [], by simp, by simpa using h⟩
    · rcases ih (p ++ [n]) x h with ⟨m, pre, hm, he⟩
      refine ⟨m, [n] ++ pre, by simp [hm], ?_⟩
      rw [he, List.append_assoc]

theorem hasDoubleUS_append_double :
    ∀ (b d : List Char), hasDoubleUS (b ++ '_' :: '_' :: d) = true := by
  intro b
  induction b with
  | nil => intro d; simp [hasDoubleUS]
  | cons c b ih =>
    intro d
    cases b with
    | nil => simp [hasDoubleUS]
    | cons c2 b2 =>
      have hb := ih d
      simp only [List.cons_append] at hb ⊢
      rw [hasDoubleUS, hb, Bool.or_true]

theorem hasDoubleUS_cons_false {a : Char} {l : List Char}
    (h : hasDoubleUS (a :: l) = false) : hasDoubleUS l = false := by
  cases l with
  | nil => rfl
  | cons b rest =>
    rw [hasDoubleUS] at h
    exact (Bool.or_eq_false_iff.mp h).2

theorem underscore_parse :
    ∀ (b1 b2 d1 d2 : List Char),
    hasDoubleUS b1 = false → hasDoubleUS b2 = false →
    '_' ∉ d1 → '_' ∉ d2 →
    b1 ++ '_' :: '_' :: d1 = b2 ++ '_' :: '_' :: d2 → b1 = b2 ∧ d1 = d2 := by
  intro b1
  induction b1 with
  | nil =>
    intro b2 d1 d2 h1 h2 hd1 hd2 he
    cases b2 with
    | nil =>
      simp only [List.nil_append] at he
      injection he with _ he2
      injection he2 with _ he3
      exact ⟨rfl, he3⟩
    | cons c2 t2 =>
      simp only [List.nil_append, List.cons_append] at he
      injection he with hc2 he2
      cases t2 with
      | nil =>
        simp only [List.nil_append] at he2
        injection he2 with _ he3
        exact absurd (he3 ▸ List.mem_cons_self '_' d2) hd1
      | cons c3 t3 =>
        simp only [List.cons_append] at he2
        injection he2 with hc3 _
        rw [← hc2, ← hc3] at h2
        simp [hasDoubleUS] at h2
  | cons c1 t1 ih =>
    intro b2 d1 d2 h1 h2 hd1 hd2 he
    cases b2 with
    | nil =>
      simp only [List.nil_append, List.cons_append] at he
      injection he with hc1 he2
      cases t1 with
      | nil =>
        simp only [List.nil_append] at he2
        injection he2 with _ he3
        exact absurd (he3.symm ▸ List.mem_cons_self '_' d1) hd2
      | cons c3 t3 =>
        simp only [List.cons_append] at he2
        injection he2 with hc3 _
        rw [hc1, hc3] at h1
        simp [hasDoubleUS] at h1
    | cons c2 t2 =>
      simp only [List.cons_append] at he
      injection he with hc ht
      subst hc
      have hr := ih t2 d1 d2 (hasDoubleUS_cons_false h1) (hasDoubleUS_cons_false h2)
        hd1 hd2 ht
      exact ⟨by rw [hr.1], hr.2⟩

end ExcelWiz

namespace ExcelWiz

theorem outFor_ne_of_count_lt {p q : List String} {n : String}
    (hlt : p.count n < q.count n) : outFor p n ≠ outFor q n := by
  intro he
  have hqz : ¬ q.count n = 0 := by omega
  unfold outFor at he
  rw [if_neg hqz] at he
  by_cases hz : p.count n = 0
  · rw [if_pos hz] at he
    have hlen := congrArg (fun s : String => s.data.length) he
    simp only [String.data_append, List.length_append] at hlen
    have hpos : 0 < (numToString (q.count n + 1)).data.length :=
      List.length_pos.mpr (numToString_ne_nil _)
    have h2 : ("__" : String).data.length = 2 := rfl
    omega
  · rw [if_neg hz] at he
    have h2 := congrArg String.data he
    simp only [String.data_append, List.append_assoc] at h2
    have h3 := List.append_cancel_left h2
    have h4 := List.append_cancel_left h3
    have h5 := numToString_injective (String.ext h4)
    omega

theorem outFor_ne_of_base_ne {p q : List String} {n m : String} (hnm : n ≠ m)
    (hn : hasDoubleUS n.data = false) (hm : hasDoubleUS m.data = false) :
    outFor p n ≠ outFor q m := by
  intro he
  unfold outFor at he
  by_cases hz1 : p.count n = 0 <;> by_cases hz2 : q.count m = 0
  · rw [if_pos hz1, if_pos hz2] at he
    exact hnm he
  · rw [if_pos hz1, if_neg hz2] at he
    have h2 := congrArg String.data he
    simp only [String.data_append, List.append_assoc] at h2
    simp only [List.cons_append, List.nil_append] at h2
    rw [h2, hasDoubleUS_append_double] at hn
    exact Bool.noConfusion hn
  · rw [if_neg hz1, if_pos hz2] at he
    have h2 := congrArg String.data he.symm
    simp only [String.data_append, List.append_assoc] at h2
    simp only [List.cons_append, List.nil_append] at h2
    rw [h2, hasDoubleUS_append_double] at hm
    exact Bool.noConfusion hm
  · rw [if_neg hz1, if_neg hz2] at he
    have h2 := congrArg String.data he
    simp only [String.data_append, List.append_assoc] at h2
    simp only [List.cons_append, List.nil_append] at h2
    have hp := underscore_parse n.data m.data _ _ hn hm
      (numToString_no_underscore _) (numToString_no_underscore _) h2
    exact hnm (String.ext hp.1)

theorem specOuts_nodup :
    ∀ (ns p : List String), (∀ n ∈ ns, hasDoubleUS n.data = false) →
    (specOuts p ns).Nodup := by
  intro ns
  induction ns with
  | nil => intro p _; simp [specOuts]
  | cons n rest ih =>
    intro p h
    show (outFor p n :: specOuts (p ++ [n]) rest).Nodup
    refine List.nodup_cons.mpr ⟨?_, ih (p ++ [n]) (fun m hm => h m (by simp [hm]))⟩
    intro hmem
    rcases specOuts_mem rest (p ++ [n]) _ hmem with ⟨m, pre, hm, he⟩
    by_cases hmn : m = n
    · subst hmn
      have hone : List.count m [m] = 1 := by simp
      have hcnt : p.count m < ((p ++ [m]) ++ pre).count m := by
        simp only [List.count_append, hone]
        omega
      exact outFor_ne_of_count_lt hcnt he
    · exact outFor_ne_of_base_ne (fun hh => hmn hh.symm) (h n (by simp))
        (h m (by simp [hm])) he

/-- Claim C1 (amended): within one build the deduplicated identifiers
are pairwise distinct provided no normalized name contains two
consecutive underscores (so that no input name can coincide with a
suffixed identifier `base__k`); a colliding name is disambiguated by
appending a double underscore and its occurrence number. -/
theorem c1_amended_distinct (names : List String)
    (h : ∀ n ∈ names, hasDoubleUS n.data = false) :
    (assignAll [] names).Nodup := by
  have hchar := assignAll_eq_specOuts names [] []
    (by intro n; simp [lookupCount])
  rw [hchar]
  exact specOuts_nodup names [] h

theorem c1_amended_distinct_witness :
    (∀ n ∈ (["foo", "foo", "bar"] : List String), hasDoubleUS n.data = false) ∧
    (assignAll [] ["foo", "foo", "bar"]).Nodup :=
  ⟨by decide, c1_amended_distinct ["foo", "foo", "bar"] (by decide)⟩

/-- Claim C1, counterexample: on a workbook whose headers normalize to
`foo`, `foo`, `foo__2`, the build emits the identifier `foo__2` twice —
the suffix produced for the second `foo` is never entered in the count
table, so the literal header `foo__2` duplicates it. -/
theorem c1_counterexample :
    identsOfLines (buildColumnMapLines collisionWorkbook) = ["foo", "foo__2", "foo__2"] ∧
    ¬ (identsOfLines (buildColumnMapLines collisionWorkbook)).Nodup := by
  constructor
  · decide
  · decide

end ExcelWiz

namespace ExcelWiz

/-! ## Header label construction and emission -/

theorem primaryScan_eq_take :
    ∀ (k : Nat) (texts : List String), k ≤ texts.length →
    primaryScan texts k = ((texts.take k).reverse.find? (fun t => t != "")).getD "" := by
  intro k
  induction k with
  | zero => intro texts _; simp [primaryScan]
  | succ k ih =>
    intro texts h
    have hk : k < texts.length := by omega
    have htake : texts.take (k + 1) = texts.take k ++ [texts[k]] := by
      rw [List.take_succ]
      simp [List.getElem?_eq_getElem hk]
    have hgetD : texts.getD k "" = texts[k] := by
      simp [List.getD_eq_getElem?_getD, List.getElem?_eq_getElem hk]
    rw [show primaryScan texts (k + 1) =
        (if texts.getD k "" ≠ "" then texts.getD k "" else primaryScan texts k) from rfl]
    rw [hgetD, htake, List.reverse_append, List.reverse_singleton, List.singleton_append]
    by_cases hv : texts[k] = ""
    · rw [if_neg (by simp [hv]), List.find?_cons_of_neg _ (by simp [hv])]
      exact ih texts (by omega)
    · rw [if_pos hv, List.find?_cons_of_pos _ (by simp [hv])]
      simp

theorem combinedScan_eq_spec :
    ∀ (primary : String) (rows : List String),
    combinedScan primary rows = specCombined primary rows := by
  intro primary rows
  induction rows with
  | nil => rfl
  | cons t rest ih =>
    show (if t ≠ "" ∧ t ≠ primary then t ++ " - " ++ primary
      else combinedScan primary rest) = specCombined primary (t :: rest)
    by_cases hc : t ≠ "" ∧ t ≠ primary
    · rw [if_pos hc]
      unfold specCombined
      rw [List.find?_cons_of_pos _ (by simp [hc.1, hc.2])]
    · rw [if_neg hc]
      have hb : (t != "" && t != primary) = false := by
        by_cases h1 : t = ""
        · simp [h1]
        · have h2 : t = primary := by tauto
          simp [h2]
      unfold specCombined
      rw [List.find?_cons_of_neg _ (by simp [hb])]
      exact ih

theorem assignName_fst_shape (t : CountTable) (n : String) :
    (assignName t n).1 = n ∨ ∃ k, (assignName t n).1 = n ++ "__" ++ numToString k := by
  unfold assignName
  cases hl : lookupCount t n with
  | none => exact Or.inl rfl
  | some c =>
    by_cases hc : c = 0
    · exact Or.inl (by simp [hc])
    · refine Or.inr ⟨c + 1, ?_⟩
      simp [hc]

theorem columnLines_mem :
    ∀ (cols : List Nat) (s : SheetData) (u : UsedRange)
      (headerRows startRow lastRow : Nat) (t : CountTable) (col : Nat),
    col ∈ cols →
    primaryScan (headerTextsList s u headerRows col) headerRows ≠ "" →
    ∃ lhs,
      (lhs = normalizeName (combinedScan
          (primaryScan (headerTextsList s u headerRows col) headerRows)
          ((headerTextsList s u headerRows col).take (headerRows - 1))) ∨
       ∃ k, lhs = normalizeName (combinedScan
          (primaryScan (headerTextsList s u headerRows col) headerRows)
          ((headerTextsList s u headerRows col).take (headerRows - 1))) ++ "__" ++
          numToString k) ∧
      (lhs ++ " = '" ++ escapeQuotes s.name ++ "'!" ++
        columnIndexToLetter (u.columnIndex + col) ++ numToString startRow ++ ":" ++
        columnIndexToLetter (u.columnIndex + col) ++ numToString lastRow) ∈
        (columnLines s u headerRows startRow lastRow cols t).1 := by
  intro cols
  induction cols with
  | nil => intro s u hr sr lr t col hc _; simp at hc
  | cons c0 cols ih =>
    intro s u hr sr lr t col hc hp
    rcases List.mem_cons.mp hc with h | h
    · subst h
      refine ⟨(assignName t (normalizeName (combinedScan
          (primaryScan (headerTextsList s u hr col) hr)
          ((headerTextsList s u hr col).take (hr - 1))))).1,
        assignName_fst_shape _ _, ?_⟩
      simp only [columnLines]
      rw [if_neg hp]
      exact List.mem_cons_self _ _
    · by_cases hp0 : primaryScan (headerTextsList s u hr c0) hr = ""
      · rcases ih s u hr sr lr t col h hp with ⟨lhs, hsh, hmem⟩
        refine ⟨lhs, hsh, ?_⟩
        simp only [columnLines]
        rw [if_pos hp0]
        exact hmem
      · rcases ih s u hr sr lr (assignName t (normalizeName (combinedScan
            (primaryScan (headerTextsList s u hr c0) hr)
            ((headerTextsList s u hr c0).take (hr - 1))))).2 col h hp with
          ⟨lhs, hsh, hmem⟩
        refine ⟨lhs, hsh, ?_⟩
        simp only [columnLines]
        rw [if_neg hp0]
        exact List.mem_cons_of_mem _ hmem

end ExcelWiz

namespace ExcelWiz

/-- Claim C6 (amended): for each column of a mapped sheet the builder
reads up to 3 header rows from the top of the used range; the primary
label is the bottom-most non-empty trimmed header cell, and at most one
outer header cell — the top-most non-empty one differing from the
primary — is prepended with a ` - ` separator (middle cells and cells
equal to the primary are dropped); the label is normalized
(trim, lowercase, whitespace runs to underscores), possibly suffixed by
the collision handler, and emitted as
`label = 'Sheet'!ColStart:ColEnd` with single quotes in the sheet name
doubled. -/
theorem c6_amended :
    (∀ texts : List String, primaryScan texts texts.length = specPrimary texts) ∧
    (∀ (primary : String) (rows : List String),
      combinedScan primary rows = specCombined primary rows) ∧
    (∀ (s : SheetData) (u : UsedRange) (t : CountTable) (col : Nat),
      col ∈ List.range u.columnCount →
      primaryScan (headerTextsList s u (min 3 u.rowCount) col) (min 3 u.rowCount) ≠ "" →
      ∃ lhs,
        (lhs = normalizeName (combinedScan
            (primaryScan (headerTextsList s u (min 3 u.rowCount) col) (min 3 u.rowCount))
            ((headerTextsList s u (min 3 u.rowCount) col).take (min 3 u.rowCount - 1))) ∨
         ∃ k, lhs = normalizeName (combinedScan
            (primaryScan (headerTextsList s u (min 3 u.rowCount) col) (min 3 u.rowCount))
            ((headerTextsList s u (min 3 u.rowCount) col).take (min 3 u.rowCount - 1))) ++
            "__" ++ numToString k) ∧
        (lhs ++ " = '" ++ escapeQuotes s.name ++ "'!" ++
          columnIndexToLetter (u.columnIndex + col) ++
          numToString (dataRowBounds u).1 ++ ":" ++
          columnIndexToLetter (u.columnIndex + col) ++
          numToString (dataRowBounds u).2) ∈
          (columnLines s u (min 3 u.rowCount) (dataRowBounds u).1 (dataRowBounds u).2
            (List.range u.columnCount) t).1) := by
  refine ⟨?_, combinedScan_eq_spec, ?_⟩
  · intro texts
    rw [primaryScan_eq_take texts.length texts (Nat.le_refl _), List.take_length]
    rfl
  · intro s u t col hc hp
    exact columnLines_mem (List.range u.columnCount) s u (min 3 u.rowCount)
      (dataRowBounds u).1 (dataRowBounds u).2 t col hc hp

theorem c6_amended_witness :
    ∃ lhs,
      (lhs = normalizeName (combinedScan
          (primaryScan (headerTextsList tripleHeaderSheet ⟨0, 0, 4, 1⟩
            (min 3 (4 : Nat)) 0) (min 3 (4 : Nat)))
          ((headerTextsList tripleHeaderSheet ⟨0, 0, 4, 1⟩ (min 3 (4 : Nat)) 0).take
            (min 3 (4 : Nat) - 1))) ∨
       ∃ k, lhs = normalizeName (combinedScan
          (primaryScan (headerTextsList tripleHeaderSheet ⟨0, 0, 4, 1⟩
            (min 3 (4 : Nat)) 0) (min 3 (4 : Nat)))
          ((headerTextsList tripleHeaderSheet ⟨0, 0, 4, 1⟩ (min 3 (4 : Nat)) 0).take
            (min 3 (4 : Nat) - 1))) ++ "__" ++ numToString k) ∧
      (lhs ++ " = '" ++ escapeQuotes tripleHeaderSheet.name ++ "'!" ++
        columnIndexToLetter (0 + 0) ++
        numToString (dataRowBounds ⟨0, 0, 4, 1⟩).1 ++ ":" ++
        columnIndexToLetter (0 + 0) ++
        numToString (dataRowBounds ⟨0, 0, 4, 1⟩).2) ∈
        (columnLines tripleHeaderSheet ⟨0, 0, 4, 1⟩ (min 3 (4 : Nat))
          (dataRowBounds ⟨0, 0, 4, 1⟩).1 (dataRowBounds ⟨0, 0, 4, 1⟩).2
          (List.range 1) []).1 :=
  c6_amended.2.2 tripleHeaderSheet ⟨0, 0, 4, 1⟩ [] 0 (by decide) (by decide)

/-- Claim C6, counterexample: with three stacked distinct non-empty
headers `A`, `B`, `C` in one column, the emitted label is `a_-_c` — the
middle header cell is dropped — whereas concatenating all the non-empty
header cells with the innermost last would give `a_-_b_-_c`, a label no
emitted line carries. -/
theorem c6_counterexample :
    buildColumnMapLines tripleHeaderWorkbook = ["Sheet: S", "a_-_c = 'S'!A4:A4"] ∧
    normalizeName ("A" ++ " - " ++ ("B" ++ " - " ++ "C")) = "a_-_b_-_c" ∧
    ∀ l ∈ buildColumnMapLines tripleHeaderWorkbook, lhsOf l ≠ some "a_-_b_-_c" := by
  exact ⟨by decide, by decide, by decide⟩

end ExcelWiz
